import Mathlib

/-!
Verification of `standup.py`: a hierarchical team tree together with the
worklist traversal `Team.get_members` that flattens the tree into a
presentation order under one of three shuffle policies, and the
record-based builder `build_team_from_dict` / serializer `Team.to_dict`.

Modelling conventions:
* The Python `Team` constructor asserts (via `_assert_members_xor_subteams`)
  that exactly one of `members` / `subteams` is not `None`, so every
  constructible Python `Team` is either a leaf (`members` set, `subteams`
  `None`) or an internal node (`subteams` set, possibly the empty list,
  `members` `None`).  We model this as a variant type.  `Team.node n []`
  models the Python object `Team(n, subteams=[])`.
* Python's process-wide pseudorandom source is modelled as an oracle
  `R : Nat -> List String -> List String` together with a draw counter:
  the k-th random draw applied to a list `l` (either `random.sample(l, len l)`
  or `random.shuffle(l)`) returns `R k l`.  An oracle is a faithful model of
  a random source when every draw returns a permutation of its input.
* A raised Python exception is modelled as `Option.none` (for the `TypeError`
  inside `get_members`) or `Except.error msg` (for the `ValueError` raised by
  `_assert_members_xor_subteams`, whose message string we copy verbatim).
-/

/-- A team, as constructible through the Python `Team` class: the constructor
runs `_assert_members_xor_subteams(members, subteams)`, so exactly one of the
two fields is non-`None`.  `leaf name members` is a team whose `members` list
is set; `node name subteams` is a team whose `subteams` list is set
(`node name []` is `Team(name, subteams=[])`, which the assertion accepts
because `[] is not None`). -/
inductive Team where
  | leaf (name : String) (members : List String)
  | node (name : String) (subteams : List Team)

/-- The `ShuffleMethod` enum of `standup.py`. -/
inductive ShuffleMethod where
  | NONE
  | GROUPED
  | UNGROUPED
deriving DecidableEq

/-- A random oracle: draw number `k` applied to list `l` yields `R k l`.
Models the shared `random` module state of the Python process. -/
abbrev RandSrc := Nat → List String → List String

/-- An oracle faithfully models a random source when every draw returns a
permutation of its input (as `random.sample(l, len l)` and `random.shuffle`
do). -/
def RandSrc.lawful (R : RandSrc) : Prop :=
  ∀ k l, (R k l).Perm l

mutual

/-- Total number of tree nodes, used as the termination measure of the
worklist loop (each loop iteration pops exactly one node). -/
def Team.totalNodes : Team → Nat
  | .leaf _ _ => 1
  | .node _ ts => 1 + totalNodesList ts

/-- Sum of node counts over a list of teams (e.g. a worklist stack). -/
def totalNodesList : List Team → Nat
  | [] => 0
  | t :: ts => Team.totalNodes t + totalNodesList ts

end

theorem totalNodesList_append (a b : List Team) :
    totalNodesList (a ++ b) = totalNodesList a + totalNodesList b := by
  induction a with
  | nil => simp [totalNodesList]
  | cons t ts ih => simp [totalNodesList, ih, Nat.add_assoc]

theorem totalNodes_pos (t : Team) : 0 < Team.totalNodes t := by
  cases t <;> simp [Team.totalNodes]

/-- The `while teams:` loop of `Team.get_members` (lines 80-89 of
`standup.py`).  The Lean list models the Python stack with its head as the
top (`teams.pop()` pops the head; `teams.extend(reversed(team.subteams))`
pushes the subteams so that the first declared subteam is on top, i.e. it
prepends them in declared order).  The branch on `if team.subteams:` uses
Python truthiness: a `None` or empty `subteams` falls through to the `else`
branch, which reads `team.members`; for `node _ []` that attribute is `None`,
so `random.sample`/`list.extend` raises a `TypeError`, modelled as
`Option.none`.  Returns the accumulated members together with the next draw
index. -/
def getMembersLoop (R : RandSrc) (m : ShuffleMethod) :
    List Team → List String → Nat → Option (List String × Nat)
  | [], acc, k => some (acc, k)
  | Team.node _ (s :: ss) :: rest, acc, k =>
      getMembersLoop R m (s :: (ss ++ rest)) acc k
  | Team.node _ [] :: _, _, _ => none
  | Team.leaf _ ms :: rest, acc, k =>
      if m = ShuffleMethod.GROUPED then
        getMembersLoop R m rest (acc ++ R k ms) (k + 1)
      else
        getMembersLoop R m rest (acc ++ ms) k
termination_by ts _ _ => totalNodesList ts
decreasing_by
  all_goals simp [totalNodesList, totalNodesList_append, Team.totalNodes]
  all_goals omega

/-- Model of `Team.get_members` (lines 54-94 of `standup.py`): run the worklist loop
starting from the singleton stack `[self]` with an empty accumulator, then,
when the method is `UNGROUPED`, apply one final whole-list draw
(`random.shuffle(members)`). -/
def Team.get_members (t : Team) (shuffle_method : ShuffleMethod) (R : RandSrc) :
    Option (List String) :=
  match getMembersLoop R shuffle_method [t] [] 0 with
  | none => none
  | some (ms, k) =>
      some (if shuffle_method = ShuffleMethod.UNGROUPED then R k ms else ms)

/-- The call `t.get_members()` with the `shuffle_method` argument omitted:
the Python signature declares the default value `ShuffleMethod.GROUPED`
(line 55 of `standup.py`). -/
def Team.get_members_default (t : Team) (R : RandSrc) : Option (List String) :=
  t.get_members ShuffleMethod.GROUPED R

mutual

/-- The depth-first, declared-order flattening of a team: every leaf emits
its members in declared order, subteams are visited in declared order.  This
is the spec's "all members in t", listed in declared tree order. -/
def flatten : Team → List String
  | .leaf _ ms => ms
  | .node _ ts => flattenList ts

/-- Concatenation of the flattenings of a list of teams, in order. -/
def flattenList : List Team → List String
  | [] => []
  | t :: ts => flatten t ++ flattenList ts

end

mutual

/-- The member lists of the leaves of a team, in depth-first declared
order. -/
def leaves : Team → List (List String)
  | .leaf _ ms => [ms]
  | .node _ ts => leavesList ts

/-- Concatenation of the leaf lists of a list of teams, in order. -/
def leavesList : List Team → List (List String)
  | [] => []
  | t :: ts => leaves t ++ leavesList ts

end

mutual

/-- A team is traversal-safe when every internal node has at least one
subteam; `get_members` raises a `TypeError` exactly on the teams violating
this (the empty `subteams` list is falsy, so the node is treated as a leaf
whose `members` is `None`). -/
def Team.wf : Team → Bool
  | .leaf _ _ => true
  | .node _ [] => false
  | .node _ (t :: ts) => Team.wf t && wfList ts

/-- All teams in the list are traversal-safe. -/
def wfList : List Team → Bool
  | [] => true
  | t :: ts => Team.wf t && wfList ts

end

/-- Apply consecutive oracle draws `k, k+1, ...` to a list of blocks, one
draw per block: the per-leaf `random.sample` results of the `GROUPED`
branch, kept as separate blocks. -/
def shuffledBlocks (R : RandSrc) : Nat → List (List String) → List (List String)
  | _, [] => []
  | k, b :: bs => R k b :: shuffledBlocks R (k + 1) bs

/-- A team record (the Python dictionary handed to `build_team_from_dict`,
e.g. parsed from JSON): a `name` plus optional `members` and `subteams`
entries.  `Option.none` models the key being absent. -/
inductive TeamDict where
  | mk (name : String) (members : Option (List String))
       (subteams : Option (List TeamDict))

mutual

/-- Model of `Team.to_dict` (lines 96-108 of `standup.py`): a team whose `members` is
`None` (an internal node) writes a `subteams` entry of recursively serialized
subteams; otherwise it writes its `members` list. -/
def Team.to_dict : Team → TeamDict
  | .leaf n ms => .mk n (some ms) none
  | .node n ts => .mk n none (some (toDictList ts))

/-- Serialize each team of a list (the comprehension on lines 104-105). -/
def toDictList : List Team → List TeamDict
  | [] => []
  | t :: ts => Team.to_dict t :: toDictList ts

end

/-- Message of the `ValueError` raised by `_assert_members_xor_subteams`
when both `members` and `subteams` are `None` (line 23 of `standup.py`). -/
def neitherMsg : String := "Either members or subteams are required."

/-- Message of the `ValueError` raised by `_assert_members_xor_subteams`
when both `members` and `subteams` are present (lines 24-25 of
`standup.py`). -/
def bothMsg : String :=
  "Team cannot contain members and subteams at the same level."

mutual

/-- Model of `build_team_from_dict` (lines 111-129 of `standup.py`): first
`_assert_members_xor_subteams(d.get('members'), d.get('subteams'))` raises a
`ValueError` (modelled as `Except.error` with the verbatim message) when both
entries are present or neither is; then a record with a `members` entry
becomes a leaf `Team`, and one with a `subteams` entry recurses over the
subteam records in order. -/
def build_team_from_dict : TeamDict → Except String Team
  | .mk _ none none => .error neitherMsg
  | .mk _ (some _) (some _) => .error bothMsg
  | .mk n (some ms) none => .ok (Team.leaf n ms)
  | .mk n none (some subs) =>
      match buildTeamList subs with
      | .error e => .error e
      | .ok ts => .ok (Team.node n ts)

/-- Build each subteam record in declared order, propagating the first
failure (the list comprehension on lines 128-129: a raised `ValueError`
aborts the whole comprehension). -/
def buildTeamList : List TeamDict → Except String (List Team)
  | [] => .ok []
  | d :: ds =>
      match build_team_from_dict d with
      | .error e => .error e
      | .ok t =>
          match buildTeamList ds with
          | .error e => .error e
          | .ok ts => .ok (t :: ts)

end

mutual

/-- The spec's validation rule on records: at every level, exactly one of
`members` / `subteams` is present. -/
def validRecord : TeamDict → Bool
  | .mk _ (some _) none => true
  | .mk _ none (some subs) => validRecordList subs
  | .mk _ _ _ => false

/-- Every record of the list satisfies the validation rule. -/
def validRecordList : List TeamDict → Bool
  | [] => true
  | d :: ds => validRecord d && validRecordList ds

end

mutual

/-- Some node of the record (the root or a descendant reachable through
`subteams` entries) has both `members` and `subteams` present, or neither. -/
def hasViolation : TeamDict → Bool
  | .mk _ none none => true
  | .mk _ (some _) (some _) => true
  | .mk _ (some _) none => false
  | .mk _ none (some subs) => hasViolationList subs

/-- Some record of the list contains a violating node. -/
def hasViolationList : List TeamDict → Bool
  | [] => false
  | d :: ds => hasViolation d || hasViolationList ds

end

/-- Fuel-indexed variant of the worklist loop: runs at most `fuel`
iterations of the `while teams:` loop, consuming one unit per pop.  The
outer `Option.none` means the fuel ran out; `some r` means the loop finished
within the fuel with outcome `r` (where `r` is the outcome `getMembersLoop`
describes: `Option.none` for the `TypeError`, `some (acc, k)` for normal
exit). -/
def loopFuel (R : RandSrc) (m : ShuffleMethod) :
    Nat → List Team → List String → Nat →
    Option (Option (List String × Nat))
  | 0, _ :: _, _, _ => none
  | _, [], acc, k => some (some (acc, k))
  | fuel + 1, Team.node _ (s :: ss) :: rest, acc, k =>
      loopFuel R m fuel (s :: (ss ++ rest)) acc k
  | _ + 1, Team.node _ [] :: _, _, _ => some none
  | fuel + 1, Team.leaf _ ms :: rest, acc, k =>
      if m = ShuffleMethod.GROUPED then
        loopFuel R m fuel rest (acc ++ R k ms) (k + 1)
      else
        loopFuel R m fuel rest (acc ++ ms) k

/-- The number of leaves of a team, i.e. the number of per-leaf draws the
`GROUPED` traversal consumes. -/
def numLeaves (t : Team) : Nat := (leaves t).length

/-- The `UNGROUPED` reference algorithm as the spec words it: "first compute
the same leaf-level shuffling as GROUPED (each leaf's members independently
permuted), concatenate in tree order, then apply one additional uniformly
random permutation to the entire resulting flat sequence".  With the shared
sequential random source, the per-leaf stage consumes draws
`0, ..., numLeaves t - 1` exactly as the `GROUPED` run does, and the final
whole-sequence permutation is the next draw, `numLeaves t`. -/
def ungroupedTwoStage (t : Team) (R : RandSrc) : Option (List String) :=
  match t.get_members ShuffleMethod.GROUPED R with
  | none => none
  | some ms => some (R (numLeaves t) ms)

/-- Concatenate a list of blocks into one flat list. -/
def joinAll : List (List String) → List String
  | [] => []
  | b :: bs => b ++ joinAll bs

/-- Identity oracle: every draw returns its input unchanged. -/
def Rid : RandSrc := fun _ l => l

/-- Reversing oracle: every draw reverses its input. -/
def Rrev : RandSrc := fun _ l => l.reverse

/-- Oracle whose draw 0 is the identity and whose later draws reverse. -/
def Rfirst : RandSrc := fun k l => if k = 0 then l else l.reverse

/-- The concrete scenario tree of the spec: Eng with subteams Backend
(members Al, Bo) and Frontend (member Cy). -/
def engTeam : Team :=
  Team.node "Eng" [Team.leaf "Backend" ["Al", "Bo"], Team.leaf "Frontend" ["Cy"]]

/-- The record describing `engTeam`. -/
def engRecord : TeamDict :=
  TeamDict.mk "Eng" none
    (some [TeamDict.mk "Backend" (some ["Al", "Bo"]) none,
           TeamDict.mk "Frontend" (some ["Cy"]) none])

theorem Rid_lawful : RandSrc.lawful Rid := fun _ l => List.Perm.refl l

theorem Rrev_lawful : RandSrc.lawful Rrev := fun _ l => List.reverse_perm l

theorem Rfirst_lawful : RandSrc.lawful Rfirst := by
  intro k l
  by_cases h : k = 0 <;> simp [Rfirst, h, List.reverse_perm]

/-- Induction over a team with a membership hypothesis for subteams. -/
theorem teamMemberInd {motive : Team → Prop}
    (hleaf : ∀ n ms, motive (Team.leaf n ms))
    (hnode : ∀ n ts, (∀ s ∈ ts, motive s) → motive (Team.node n ts)) :
    ∀ t, motive t :=
  flatten.induct motive (fun ts => ∀ s ∈ ts, motive s) hleaf hnode
    (by intro s hs; cases hs)
    (by intro t ts h1 h2 s hs
        cases hs with
        | head => exact h1
        | tail _ hs => exact h2 s hs)

/-- Induction over a record with a membership hypothesis for subrecords. -/
theorem dictMemberInd {motive : TeamDict → Prop}
    (h1 : ∀ n, motive (TeamDict.mk n none none))
    (h2 : ∀ n ms ss, motive (TeamDict.mk n (some ms) (some ss)))
    (h3 : ∀ n ms, motive (TeamDict.mk n (some ms) none))
    (h4 : ∀ n subs, (∀ d ∈ subs, motive d) →
      motive (TeamDict.mk n none (some subs))) :
    ∀ r, motive r :=
  hasViolation.induct motive (fun ds => ∀ d ∈ ds, motive d) h1 h2 h3 h4
    (by intro d hd; cases hd)
    (by intro d ds hd hds e he
        cases he with
        | head => exact hd
        | tail _ he => exact hds e he)

theorem wfList_append (a b : List Team) :
    wfList (a ++ b) = (wfList a && wfList b) := by
  induction a with
  | nil => simp [wfList]
  | cons t ts ih => simp [wfList, ih, Bool.and_assoc]

theorem flattenList_append (a b : List Team) :
    flattenList (a ++ b) = flattenList a ++ flattenList b := by
  induction a with
  | nil => simp [flattenList]
  | cons t ts ih => simp [flattenList, ih]

theorem leavesList_append (a b : List Team) :
    leavesList (a ++ b) = leavesList a ++ leavesList b := by
  induction a with
  | nil => simp [leavesList]
  | cons t ts ih => simp [leavesList, ih]

theorem joinAll_append (a b : List (List String)) :
    joinAll (a ++ b) = joinAll a ++ joinAll b := by
  induction a with
  | nil => simp [joinAll]
  | cons x xs ih => simp [joinAll, ih]

/-- The declared-order flattening is the concatenation of the leaf member
lists in declared leaf order. -/
theorem flatten_eq_joinAll_leaves : ∀ t : Team, flatten t = joinAll (leaves t) := by
  apply teamMemberInd
  · intro n ms
    simp [flatten, leaves, joinAll]
  · intro n ts ih
    simp only [flatten, leaves]
    induction ts with
    | nil => simp [flattenList, leavesList, joinAll]
    | cons s ss ihs =>
        simp only [flattenList, leavesList, joinAll_append]
        rw [ih s (by simp), ihs (fun x hx => ih x (by simp [hx]))]

theorem shuffledBlocks_forall2 (R : RandSrc) (hR : R.lawful) :
    ∀ (bs : List (List String)) (k : Nat),
      List.Forall₂ List.Perm (shuffledBlocks R k bs) bs := by
  intro bs
  induction bs with
  | nil => intro k; simp [shuffledBlocks]
  | cons b bs ih =>
      intro k
      exact List.Forall₂.cons (hR k b) (ih (k + 1))

theorem joinAll_perm_of_forall2 :
    ∀ {as bs : List (List String)}, List.Forall₂ List.Perm as bs →
      (joinAll as).Perm (joinAll bs) := by
  intro as bs h
  induction h with
  | nil => simp [joinAll]
  | cons hab _ ih => exact List.Perm.append hab ih

/-- For `NONE` and `UNGROUPED`, the worklist loop consumes no random draw
and accumulates the depth-first declared-order flattening of the stack. -/
theorem getMembersLoop_not_grouped (R : RandSrc) (m : ShuffleMethod)
    (hm : m ≠ ShuffleMethod.GROUPED) :
    ∀ (stack : List Team) (acc : List String) (k : Nat),
      wfList stack = true →
      getMembersLoop R m stack acc k = some (acc ++ flattenList stack, k) := by
  intro stack acc k
  induction stack, acc, k using getMembersLoop.induct R m with
  | case1 acc k =>
      intro _
      simp [getMembersLoop, flattenList]
  | case2 name s ss rest acc k ih =>
      intro hwf
      simp only [wfList, Team.wf, wfList_append, Bool.and_eq_true] at hwf ih
      rw [getMembersLoop, ih ⟨hwf.1.1, hwf.1.2, hwf.2⟩]
      simp [flattenList, flatten, flattenList_append, List.append_assoc]
  | case3 name tail x x1 =>
      intro hwf
      simp [wfList, Team.wf] at hwf
  | case4 name ms rest acc k hg ih =>
      exact absurd hg hm
  | case5 name ms rest acc k hg ih =>
      intro hwf
      simp only [wfList, Team.wf, Bool.true_and, Bool.and_eq_true] at hwf ih
      rw [getMembersLoop, if_neg hg, ih hwf]
      simp [flattenList, flatten, List.append_assoc]

/-- For `GROUPED`, the worklist loop consumes one draw per leaf, in
depth-first declared leaf order, and accumulates the drawn blocks in that
order. -/
theorem getMembersLoop_grouped (R : RandSrc) :
    ∀ (stack : List Team) (acc : List String) (k : Nat),
      wfList stack = true →
      getMembersLoop R ShuffleMethod.GROUPED stack acc k =
        some (acc ++ joinAll (shuffledBlocks R k (leavesList stack)),
              k + (leavesList stack).length) := by
  intro stack acc k
  induction stack, acc, k using getMembersLoop.induct R ShuffleMethod.GROUPED with
  | case1 acc k =>
      intro _
      simp [getMembersLoop, leavesList, shuffledBlocks, joinAll]
  | case2 name s ss rest acc k ih =>
      intro hwf
      simp only [wfList, Team.wf, wfList_append, Bool.and_eq_true] at hwf ih
      rw [getMembersLoop, ih ⟨hwf.1.1, hwf.1.2, hwf.2⟩]
      simp [leavesList, leaves, leavesList_append]
  | case3 name tail x x1 =>
      intro hwf
      simp [wfList, Team.wf] at hwf
  | case4 name ms rest acc k hg ih =>
      intro hwf
      simp only [wfList, Team.wf, Bool.true_and, Bool.and_eq_true] at hwf ih
      rw [getMembersLoop, if_pos hg, ih hwf]
      simp [leavesList, leaves, shuffledBlocks, joinAll, List.append_assoc]
      omega
  | case5 name ms rest acc k hg ih =>
      exact absurd rfl hg

/-- Running `get_members` with `NONE` on a traversal-safe team returns the
depth-first declared-order flattening, whatever the random source is. -/
theorem get_members_NONE (t : Team) (ht : Team.wf t = true) (R : RandSrc) :
    t.get_members ShuffleMethod.NONE R = some (flatten t) := by
  have h := getMembersLoop_not_grouped R ShuffleMethod.NONE (by simp) [t] [] 0
    (by simp [wfList, ht])
  simp [Team.get_members, h, flattenList]

/-- Running `get_members` with `UNGROUPED` on a traversal-safe team applies the
single draw number 0 to the declared-order flattening: the worklist loop
consumes no draw at all. -/
theorem get_members_UNGROUPED (t : Team) (ht : Team.wf t = true) (R : RandSrc) :
    t.get_members ShuffleMethod.UNGROUPED R = some (R 0 (flatten t)) := by
  have h := getMembersLoop_not_grouped R ShuffleMethod.UNGROUPED (by simp) [t] [] 0
    (by simp [wfList, ht])
  simp [Team.get_members, h, flattenList]

/-- Running `get_members` with `GROUPED` on a traversal-safe team returns the
concatenation, in declared leaf order, of one draw per leaf (draw `i` for
the `i`-th leaf in depth-first order). -/
theorem get_members_GROUPED (t : Team) (ht : Team.wf t = true) (R : RandSrc) :
    t.get_members ShuffleMethod.GROUPED R =
      some (joinAll (shuffledBlocks R 0 (leaves t))) := by
  have h := getMembersLoop_grouped R [t] [] 0 (by simp [wfList, ht])
  simp only [leavesList, List.append_nil] at h
  simp [Team.get_members, h]

/-- Running the fuel-indexed loop with fuel equal to the total node count of
the stack reproduces the unbounded loop's outcome: the loop pops each node
at most once. -/
theorem loopFuel_enough (R : RandSrc) (m : ShuffleMethod) :
    ∀ (fuel : Nat) (stack : List Team) (acc : List String) (k : Nat),
      totalNodesList stack ≤ fuel →
      loopFuel R m fuel stack acc k = some (getMembersLoop R m stack acc k) := by
  intro fuel stack acc k
  induction fuel, stack, acc, k using loopFuel.induct R m with
  | case1 t ts acc k =>
      intro h
      have := totalNodes_pos t
      simp [totalNodesList] at h
      omega
  | case2 fuel acc k =>
      intro _
      cases fuel <;> simp [loopFuel, getMembersLoop]
  | case3 fuel name s ss rest acc k ih =>
      intro h
      simp only [totalNodesList, Team.totalNodes, totalNodesList_append] at h ih
      rw [loopFuel, ih (by omega), getMembersLoop]
  | case4 fuel name tail x x1 =>
      intro _
      simp [loopFuel, getMembersLoop]
  | case5 fuel name ms rest acc k hg ih =>
      intro h
      simp only [totalNodesList, Team.totalNodes] at h ih
      rw [loopFuel, if_pos hg, ih (by omega), getMembersLoop, if_pos hg]
  | case6 fuel name ms rest acc k hg ih =>
      intro h
      simp only [totalNodesList, Team.totalNodes] at h ih
      rw [loopFuel, if_neg hg, ih (by omega), getMembersLoop, if_neg hg]

/-- On a traversal-safe stack, any fuel below the total node count runs out
before the loop finishes: every node really is popped (exactly) once. -/
theorem loopFuel_tight (R : RandSrc) (m : ShuffleMethod) :
    ∀ (stack : List Team) (acc : List String) (k : Nat),
      wfList stack = true →
      ∀ fuel, fuel < totalNodesList stack →
        loopFuel R m fuel stack acc k = none := by
  intro stack acc k
  induction stack, acc, k using getMembersLoop.induct R m with
  | case1 acc k =>
      intro _ fuel h
      simp [totalNodesList] at h
  | case2 name s ss rest acc k ih =>
      intro hwf fuel h
      simp only [wfList, Team.wf, wfList_append, Bool.and_eq_true] at hwf ih
      simp only [totalNodesList, Team.totalNodes, totalNodesList_append] at h
      match fuel with
      | 0 => rw [loopFuel]
      | f + 1 =>
          rw [loopFuel]
          apply ih ⟨hwf.1.1, hwf.1.2, hwf.2⟩
          simp only [totalNodesList, totalNodesList_append]
          omega
  | case3 name tail x x1 =>
      intro hwf
      simp [wfList, Team.wf] at hwf
  | case4 name ms rest acc k hg ih =>
      intro hwf fuel h
      simp only [wfList, Team.wf, Bool.true_and] at hwf ih
      simp only [totalNodesList, Team.totalNodes] at h
      match fuel with
      | 0 => rw [loopFuel]
      | f + 1 =>
          rw [loopFuel, if_pos hg]
          exact ih hwf f (by omega)
  | case5 name ms rest acc k hg ih =>
      intro hwf fuel h
      simp only [wfList, Team.wf, Bool.true_and] at hwf ih
      simp only [totalNodesList, Team.totalNodes] at h
      match fuel with
      | 0 => rw [loopFuel]
      | f + 1 =>
          rw [loopFuel, if_neg hg]
          exact ih hwf f (by omega)

/-- Serializing any constructible team and rebuilding it succeeds and
returns a structurally equal team. -/
theorem build_toDict_ok :
    ∀ t : Team, build_team_from_dict (Team.to_dict t) = Except.ok t := by
  apply teamMemberInd
  · intro n ms
    simp [Team.to_dict, build_team_from_dict]
  · intro n ts ih
    simp only [Team.to_dict, build_team_from_dict]
    have hlist : buildTeamList (toDictList ts) = Except.ok ts := by
      induction ts with
      | nil => simp [toDictList, buildTeamList]
      | cons s ss ihs =>
          simp only [toDictList, buildTeamList, ih s (by simp)]
          rw [ihs (fun x hx => ih x (by simp [hx]))]
    rw [hlist]

/-- The validation rule holds exactly when no node of the record violates
the exactly-one constraint. -/
theorem validRecord_eq_not_hasViolation :
    ∀ r : TeamDict, validRecord r = !hasViolation r := by
  apply dictMemberInd
  · intro n
    simp [validRecord, hasViolation]
  · intro n ms ss
    simp [validRecord, hasViolation]
  · intro n ms
    simp [validRecord, hasViolation]
  · intro n subs ih
    simp only [validRecord, hasViolation]
    induction subs with
    | nil => simp [validRecordList, hasViolationList]
    | cons d ds ihs =>
        simp only [validRecordList, hasViolationList, ih d (by simp),
          ihs (fun x hx => ih x (by simp [hx])), Bool.not_or]

/-- Building a record that satisfies the validation rule succeeds, and the
built team serializes back to the very record. -/
theorem build_of_valid :
    ∀ r : TeamDict, validRecord r = true →
      ∃ t : Team, build_team_from_dict r = Except.ok t ∧ Team.to_dict t = r := by
  apply dictMemberInd
  · intro n h
    simp [validRecord] at h
  · intro n ms ss h
    simp [validRecord] at h
  · intro n ms _
    exact ⟨Team.leaf n ms, by simp [build_team_from_dict], by simp [Team.to_dict]⟩
  · intro n subs ih h
    simp only [validRecord] at h
    have hlist : ∀ ds : List TeamDict,
        (∀ d ∈ ds, validRecord d = true →
          ∃ t, build_team_from_dict d = Except.ok t ∧ Team.to_dict t = d) →
        validRecordList ds = true →
        ∃ ts : List Team, buildTeamList ds = Except.ok ts ∧
          toDictList ts = ds := by
      intro ds
      induction ds with
      | nil =>
          intro _ _
          exact ⟨[], by simp [buildTeamList], by simp [toDictList]⟩
      | cons d ds ihs =>
          intro hd hv
          simp only [validRecordList, Bool.and_eq_true] at hv
          obtain ⟨t, htb, htd⟩ := hd d (by simp) hv.1
          obtain ⟨ts, htsb, htsd⟩ := ihs (fun x hx => hd x (by simp [hx])) hv.2
          exact ⟨t :: ts, by simp [buildTeamList, htb, htsb],
            by simp [toDictList, htd, htsd]⟩
    obtain ⟨ts, htsb, htsd⟩ := hlist subs ih h
    exact ⟨Team.node n ts, by simp [build_team_from_dict, htsb],
      by simp [Team.to_dict, htsd]⟩

/-- Building a record containing a violating node fails, and the error
message is always one of the two fixed `_assert_members_xor_subteams`
messages: no node name or path ever appears in it. -/
theorem build_error_of_violation :
    ∀ r : TeamDict, hasViolation r = true →
      build_team_from_dict r = Except.error bothMsg ∨
      build_team_from_dict r = Except.error neitherMsg := by
  apply dictMemberInd
  · intro n _
    right
    simp [build_team_from_dict]
  · intro n ms ss _
    left
    simp [build_team_from_dict]
  · intro n ms h
    simp [hasViolation] at h
  · intro n subs ih h
    simp only [hasViolation] at h
    have hlist : ∀ ds : List TeamDict,
        (∀ d ∈ ds, hasViolation d = true →
          build_team_from_dict d = Except.error bothMsg ∨
          build_team_from_dict d = Except.error neitherMsg) →
        hasViolationList ds = true →
        buildTeamList ds = Except.error bothMsg ∨
        buildTeamList ds = Except.error neitherMsg := by
      intro ds
      induction ds with
      | nil =>
          intro _ hv
          simp [hasViolationList] at hv
      | cons d ds ihs =>
          intro hd hv
          simp only [hasViolationList, Bool.or_eq_true] at hv
          by_cases hdv : hasViolation d = true
          · rcases hd d (by simp) hdv with he | he
            · left
              simp [buildTeamList, he]
            · right
              simp [buildTeamList, he]
          · have hval : validRecord d = true := by
              rw [validRecord_eq_not_hasViolation]
              simp [hdv]
            obtain ⟨t, htb, _⟩ := build_of_valid d hval
            have hdsv : hasViolationList ds = true := by
              rcases hv with hv | hv
              · exact absurd hv hdv
              · exact hv
            rcases ihs (fun x hx => hd x (by simp [hx])) hdsv with he | he
            · left
              simp [buildTeamList, htb, he]
            · right
              simp [buildTeamList, htb, he]
    rcases hlist subs ih h with he | he
    · left
      simp [build_team_from_dict, he]
    · right
      simp [build_team_from_dict, he]

/-- Building fails exactly on the records containing a
violating node. -/
theorem build_error_iff (r : TeamDict) :
    (∃ e, build_team_from_dict r = Except.error e) ↔ hasViolation r = true := by
  constructor
  · intro ⟨e, he⟩
    by_contra hv
    rw [Bool.not_eq_true] at hv
    have hval : validRecord r = true := by
      rw [validRecord_eq_not_hasViolation]
      simp [hv]
    obtain ⟨t, htb, _⟩ := build_of_valid r hval
    rw [htb] at he
    cases he
  · intro h
    rcases build_error_of_violation r h with he | he
    · exact ⟨bothMsg, he⟩
    · exact ⟨neitherMsg, he⟩

/-- Pairwise reading of a blockwise permutation relation. -/
theorem forall2_zip_perm :
    ∀ {as bs : List (List String)}, List.Forall₂ List.Perm as bs →
      ∀ p ∈ as.zip bs, p.1.Perm p.2 := by
  intro as bs h
  induction h with
  | nil =>
      intro p hp
      cases hp
  | cons hab _ ih =>
      intro p hp
      cases hp with
      | head => exact hab
      | tail _ hp => exact ih p hp

/-- Records with an empty `subteams` list: accepted by the validated
builder. -/
def emptyRecA : TeamDict := TeamDict.mk "A" none (some [])

/-- C1, counterexample.  The record `{'name': 'A', 'subteams': []}` passes
the builder's validation (an empty list is not `None`), yet `get_members`
on the resulting team returns no list at all (it raises a `TypeError`,
because the empty `subteams` is falsy and the `None` `members` is passed to
`list.extend`), so no permutation of the team's (empty) member multiset is
returned.  This refutes the claim as stated for the `NONE` policy and the
identity oracle. -/
theorem claim_C1_cex :
    build_team_from_dict emptyRecA = Except.ok (Team.node "A" []) ∧
    ¬ ∃ out, Team.get_members (Team.node "A" []) ShuffleMethod.NONE Rid =
        some out ∧ out.Perm (flatten (Team.node "A" [])) := by
  constructor
  · simp [emptyRecA, build_team_from_dict, buildTeamList]
  · rintro ⟨out, hout, _⟩
    simp [Team.get_members, getMembersLoop] at hout

/-- C1, amended.  For every team built via the validated builder in which
every internal node has at least one subteam, every shuffle policy and every
random source whose draws are permutations, `get_members` returns a list
that is a permutation of the multiset of all member names in the leaves
(duplicates preserved), in particular of the same length. -/
theorem claim_C1 (t : Team) (ht : Team.wf t = true) (m : ShuffleMethod)
    (R : RandSrc) (hR : R.lawful) :
    ∃ out, t.get_members m R = some out ∧ out.Perm (flatten t) ∧
      out.length = (flatten t).length := by
  cases m with
  | NONE =>
      exact ⟨flatten t, get_members_NONE t ht R, List.Perm.refl _, rfl⟩
  | GROUPED =>
      have hp : (joinAll (shuffledBlocks R 0 (leaves t))).Perm (flatten t) := by
        rw [flatten_eq_joinAll_leaves]
        exact joinAll_perm_of_forall2 (shuffledBlocks_forall2 R hR (leaves t) 0)
      exact ⟨joinAll (shuffledBlocks R 0 (leaves t)), get_members_GROUPED t ht R,
        hp, hp.length_eq⟩
  | UNGROUPED =>
      exact ⟨R 0 (flatten t), get_members_UNGROUPED t ht R, hR 0 (flatten t),
        (hR 0 (flatten t)).length_eq⟩

/-- C1, witness at the spec's concrete scenario tree with the reversing
oracle and the `GROUPED` policy. -/
theorem claim_C1_witness :
    Team.wf engTeam = true ∧ RandSrc.lawful Rrev ∧
    ∃ out, engTeam.get_members ShuffleMethod.GROUPED Rrev = some out ∧
      out.Perm (flatten engTeam) ∧ out.length = (flatten engTeam).length :=
  ⟨by simp [engTeam, Team.wf, wfList], Rrev_lawful,
    claim_C1 engTeam (by simp [engTeam, Team.wf, wfList])
      ShuffleMethod.GROUPED Rrev Rrev_lawful⟩

/-- C2, counterexample.  The empty-subteams team is accepted by the
validated builder, yet `get_members` with `NONE` does not return the
depth-first flattening (which is `[]`): it returns no list at all. -/
theorem claim_C2_cex :
    build_team_from_dict (TeamDict.mk "B" none (some [])) =
      Except.ok (Team.node "B" []) ∧
    Team.get_members (Team.node "B" []) ShuffleMethod.NONE Rid ≠
      some (flatten (Team.node "B" [])) := by
  constructor
  · simp [build_team_from_dict, buildTeamList]
  · simp [Team.get_members, getMembersLoop]

/-- C2, amended.  On teams whose internal nodes all have at least one
subteam, `get_members` with `NONE` equals the depth-first declared-order
flattening and is independent of the random source (hence deterministic
across repeated calls). -/
theorem claim_C2 (t : Team) (ht : Team.wf t = true) (R S : RandSrc) :
    t.get_members ShuffleMethod.NONE R = some (flatten t) ∧
    t.get_members ShuffleMethod.NONE R = t.get_members ShuffleMethod.NONE S := by
  refine ⟨get_members_NONE t ht R, ?_⟩
  rw [get_members_NONE t ht R, get_members_NONE t ht S]

/-- C2, witness at the spec's concrete scenario tree, with two different
oracles. -/
theorem claim_C2_witness :
    Team.wf engTeam = true ∧
    Team.get_members engTeam ShuffleMethod.NONE Rid = some (flatten engTeam) ∧
    Team.get_members engTeam ShuffleMethod.NONE Rid =
      Team.get_members engTeam ShuffleMethod.NONE Rrev :=
  ⟨by simp [engTeam, Team.wf, wfList],
   (claim_C2 engTeam (by simp [engTeam, Team.wf, wfList]) Rid Rrev).1,
   (claim_C2 engTeam (by simp [engTeam, Team.wf, wfList]) Rid Rrev).2⟩

/-- C3, counterexample.  The empty-subteams team is accepted by the
validated builder, yet `get_members` with `GROUPED` produces no output at
all, so no decomposition of the output into per-leaf blocks exists. -/
theorem claim_C3_cex :
    build_team_from_dict (TeamDict.mk "C" none (some [])) =
      Except.ok (Team.node "C" []) ∧
    ¬ ∃ blocks, Team.get_members (Team.node "C" [])
        ShuffleMethod.GROUPED Rid = some (joinAll blocks) ∧
      List.Forall₂ List.Perm blocks (leaves (Team.node "C" [])) := by
  constructor
  · simp [build_team_from_dict, buildTeamList]
  · rintro ⟨blocks, hb, _⟩
    simp [Team.get_members, getMembersLoop] at hb

/-- C3, amended.  On teams whose internal nodes all have at least one
subteam, the `GROUPED` output is the concatenation of one block per leaf,
the blocks appearing in exactly the declared depth-first leaf order (the
same leaf order as `NONE`), each block a permutation of the corresponding
leaf's members; a block over a single-member leaf is that leaf's list
unchanged. -/
theorem claim_C3 (t : Team) (ht : Team.wf t = true) (R : RandSrc)
    (hR : R.lawful) :
    ∃ blocks : List (List String),
      t.get_members ShuffleMethod.GROUPED R = some (joinAll blocks) ∧
      List.Forall₂ List.Perm blocks (leaves t) ∧
      ∀ p ∈ blocks.zip (leaves t), p.2.length = 1 → p.1 = p.2 := by
  refine ⟨shuffledBlocks R 0 (leaves t), get_members_GROUPED t ht R,
    shuffledBlocks_forall2 R hR (leaves t) 0, ?_⟩
  intro p hp hlen
  have hperm := forall2_zip_perm (shuffledBlocks_forall2 R hR (leaves t) 0) p hp
  obtain ⟨x, hx⟩ := List.length_eq_one.mp hlen
  rw [hx] at hperm ⊢
  exact List.perm_singleton.mp hperm

/-- C3, witness at the spec's concrete scenario tree with the reversing
oracle. -/
theorem claim_C3_witness :
    Team.wf engTeam = true ∧ RandSrc.lawful Rrev ∧
    ∃ blocks : List (List String),
      engTeam.get_members ShuffleMethod.GROUPED Rrev = some (joinAll blocks) ∧
      List.Forall₂ List.Perm blocks (leaves engTeam) ∧
      ∀ p ∈ blocks.zip (leaves engTeam), p.2.length = 1 → p.1 = p.2 :=
  ⟨by simp [engTeam, Team.wf, wfList], Rrev_lawful,
   claim_C3 engTeam (by simp [engTeam, Team.wf, wfList]) Rrev Rrev_lawful⟩

/-- C4, counterexample.  Take the single-leaf team `L` with members
`["a", "b"]` and the lawful oracle whose draw 0 is the identity and whose
draw 1 reverses.  The two-stage reference algorithm (per-leaf shuffle with
draw 0, then one whole-sequence shuffle with the next draw) yields
`["b", "a"]`, but the code yields `["a", "b"]`: under `UNGROUPED` the code
never runs the per-leaf `random.sample` (lines 85-89 run it only when the
method equals `GROUPED`), so the single `random.shuffle` is draw 0, not a
draw following per-leaf draws. -/
theorem claim_C4_cex :
    RandSrc.lawful Rfirst ∧
    Team.get_members (Team.leaf "L" ["a", "b"]) ShuffleMethod.UNGROUPED
        Rfirst ≠
      ungroupedTwoStage (Team.leaf "L" ["a", "b"]) Rfirst := by
  refine ⟨Rfirst_lawful, ?_⟩
  simp [Team.get_members, getMembersLoop, ungroupedTwoStage, numLeaves,
    leaves, Rfirst]

/-- C4, amended.  On teams whose internal nodes all have at least one
subteam, `get_members` with `UNGROUPED` performs no per-leaf shuffle at
all: the worklist loop emits every leaf's members in declared order and
consumes zero random draws (the returned draw counter is still 0), and the
final result is the single whole-sequence draw 0 applied to the declared
depth-first flattening. -/
theorem claim_C4 (t : Team) (ht : Team.wf t = true) (R : RandSrc) :
    getMembersLoop R ShuffleMethod.UNGROUPED [t] [] 0 = some (flatten t, 0) ∧
    t.get_members ShuffleMethod.UNGROUPED R = some (R 0 (flatten t)) := by
  have h := getMembersLoop_not_grouped R ShuffleMethod.UNGROUPED (by simp)
    [t] [] 0 (by simp [wfList, ht])
  constructor
  · rw [h]
    simp [flattenList]
  · exact get_members_UNGROUPED t ht R

/-- C4, witness at the spec's concrete scenario tree with the reversing
oracle. -/
theorem claim_C4_witness :
    Team.wf engTeam = true ∧
    getMembersLoop Rrev ShuffleMethod.UNGROUPED [engTeam] [] 0 =
      some (flatten engTeam, 0) ∧
    engTeam.get_members ShuffleMethod.UNGROUPED Rrev =
      some (Rrev 0 (flatten engTeam)) :=
  ⟨by simp [engTeam, Team.wf, wfList],
   (claim_C4 engTeam (by simp [engTeam, Team.wf, wfList]) Rrev).1,
   (claim_C4 engTeam (by simp [engTeam, Team.wf, wfList]) Rrev).2⟩

/-- C5.  Serialization and construction are mutually inverse: rebuilding
any constructible team from its serialized record returns a structurally
equal team, and building any record satisfying the exactly-one validation
rule succeeds and serializes back to the very same record. -/
theorem claim_C5 :
    (∀ t : Team, build_team_from_dict (Team.to_dict t) = Except.ok t) ∧
    (∀ r : TeamDict, validRecord r = true →
      ∃ t : Team, build_team_from_dict r = Except.ok t ∧
        Team.to_dict t = r) :=
  ⟨build_toDict_ok, build_of_valid⟩

/-- C5, witness at the spec's concrete scenario tree and its record. -/
theorem claim_C5_witness :
    build_team_from_dict (Team.to_dict engTeam) = Except.ok engTeam ∧
    validRecord engRecord = true ∧
    ∃ t : Team, build_team_from_dict engRecord = Except.ok t ∧
      Team.to_dict t = engRecord :=
  ⟨claim_C5.1 engTeam,
   by simp [engRecord, validRecord, validRecordList],
   claim_C5.2 engRecord (by simp [engRecord, validRecord, validRecordList])⟩

/-- C6.  `build_team_from_dict` fails if and only if some node of the input
record (at any level of the recursion) has both `members` and `subteams`
present or neither present; the message for "both present" differs from the
message for "neither present"; and on failure the result is an error value
carrying no team (`Except.error`). -/
theorem claim_C6 :
    (∀ r : TeamDict,
      (∃ e, build_team_from_dict r = Except.error e) ↔
        hasViolation r = true) ∧
    (∀ n ms ss, build_team_from_dict (TeamDict.mk n (some ms) (some ss)) =
      Except.error bothMsg) ∧
    (∀ n, build_team_from_dict (TeamDict.mk n none none) =
      Except.error neitherMsg) ∧
    bothMsg ≠ neitherMsg := by
  refine ⟨build_error_iff, ?_, ?_, ?_⟩
  · intro n ms ss
    simp [build_team_from_dict]
  · intro n
    simp [build_team_from_dict]
  · simp [bothMsg, neitherMsg]

/-- Nested record whose offending node (missing both fields) is named
`B`. -/
def nestedB : TeamDict :=
  TeamDict.mk "Root" none (some [TeamDict.mk "B" none none])

/-- Nested record whose offending node (missing both fields) is named
`C`. -/
def nestedC : TeamDict :=
  TeamDict.mk "Root" none (some [TeamDict.mk "C" none none])

/-- C7, counterexample.  Two nested records whose offending nodes have
different names (`B` vs `C`) produce the very same error, the fixed
`_assert_members_xor_subteams` message, which mentions neither a name nor a
path: the raised error cannot identify the offending node. -/
theorem claim_C7_cex :
    build_team_from_dict nestedB = Except.error neitherMsg ∧
    build_team_from_dict nestedC = Except.error neitherMsg := by
  constructor
  · simp [nestedB, build_team_from_dict, buildTeamList]
  · simp [nestedC, build_team_from_dict, buildTeamList]

/-- C7, amended.  When validation fails (at the root or nested), the raised
error carries one of the two fixed messages of
`_assert_members_xor_subteams`, which distinguish the "both present" case
from the "neither present" case but never identify the offending node by
name or path. -/
theorem claim_C7 (r : TeamDict) (h : hasViolation r = true) :
    build_team_from_dict r = Except.error bothMsg ∨
    build_team_from_dict r = Except.error neitherMsg :=
  build_error_of_violation r h

/-- C7, witness at the nested record with offending node `B`. -/
theorem claim_C7_witness :
    hasViolation nestedB = true ∧
    (build_team_from_dict nestedB = Except.error bothMsg ∨
     build_team_from_dict nestedB = Except.error neitherMsg) :=
  ⟨by simp [nestedB, hasViolation, hasViolationList],
   claim_C7 nestedB (by simp [nestedB, hasViolation, hasViolationList])⟩

/-- C8, counterexample.  Calling `get_members` with the `shuffle_method`
argument omitted is well-defined and silently uses `ShuffleMethod.GROUPED`
(the declared default of line 55): on the spec's scenario tree with the
reversing oracle, the omitted-argument call returns the `GROUPED` result
`["Bo", "Al", "Cy"]`, which differs from both the `NONE` and the
`UNGROUPED` results — so a default policy is assumed rather than an
explicit one being required. -/
theorem claim_C8_cex :
    Team.get_members_default engTeam Rrev = some ["Bo", "Al", "Cy"] ∧
    Team.get_members_default engTeam Rrev =
      Team.get_members engTeam ShuffleMethod.GROUPED Rrev ∧
    Team.get_members_default engTeam Rrev ≠
      Team.get_members engTeam ShuffleMethod.NONE Rrev ∧
    Team.get_members_default engTeam Rrev ≠
      Team.get_members engTeam ShuffleMethod.UNGROUPED Rrev := by
  refine ⟨?_, rfl, ?_, ?_⟩
  · simp [Team.get_members_default, Team.get_members, getMembersLoop,
      engTeam, Rrev]
  · simp [Team.get_members_default, Team.get_members, getMembersLoop,
      engTeam, Rrev]
  · simp [Team.get_members_default, Team.get_members, getMembersLoop,
      engTeam, Rrev]

/-- C8, amended.  The caller may omit the shuffle policy: the
omitted-argument call silently defaults to `GROUPED` and, on traversal-safe
teams, performs the per-leaf shuffling of the `GROUPED` policy. -/
theorem claim_C8 (t : Team) (ht : Team.wf t = true) (R : RandSrc) :
    Team.get_members_default t R =
      some (joinAll (shuffledBlocks R 0 (leaves t))) :=
  get_members_GROUPED t ht R

/-- C8, witness at the spec's concrete scenario tree with the reversing
oracle. -/
theorem claim_C8_witness :
    Team.wf engTeam = true ∧
    Team.get_members_default engTeam Rrev =
      some (joinAll (shuffledBlocks Rrev 0 (leaves engTeam))) :=
  ⟨by simp [engTeam, Team.wf, wfList],
   claim_C8 engTeam (by simp [engTeam, Team.wf, wfList]) Rrev⟩

/-- C9.  The worklist traversal terminates for every team and policy: the
fuel-indexed loop run with fuel equal to the team's total node count
already reproduces the unbounded loop's outcome (the loop performs at most
one iteration per node and cannot run forever), and on traversal-safe teams
no smaller fuel finishes (each node is popped exactly once). -/
theorem claim_C9 (t : Team) (m : ShuffleMethod) (R : RandSrc) :
    loopFuel R m (Team.totalNodes t) [t] [] 0 =
      some (getMembersLoop R m [t] [] 0) ∧
    (Team.wf t = true → ∀ fuel, fuel < Team.totalNodes t →
      loopFuel R m fuel [t] [] 0 = none) := by
  constructor
  · apply loopFuel_enough
    simp [totalNodesList]
  · intro ht fuel hf
    apply loopFuel_tight R m [t] [] 0 (by simp [wfList, ht])
    simp only [totalNodesList]
    omega

/-- C9, witness: on the three-node scenario tree, fuel 3 reproduces the
loop's outcome and fuel 2 runs out. -/
theorem claim_C9_witness :
    loopFuel Rid ShuffleMethod.NONE (Team.totalNodes engTeam) [engTeam] [] 0 =
      some (getMembersLoop Rid ShuffleMethod.NONE [engTeam] [] 0) ∧
    Team.wf engTeam = true ∧
    loopFuel Rid ShuffleMethod.NONE 2 [engTeam] [] 0 = none :=
  ⟨(claim_C9 engTeam ShuffleMethod.NONE Rid).1,
   by simp [engTeam, Team.wf, wfList],
   (claim_C9 engTeam ShuffleMethod.NONE Rid).2
     (by simp [engTeam, Team.wf, wfList]) 2
     (by simp [engTeam, Team.totalNodes, totalNodesList])⟩

/-- C10.  A record with `subteams` equal to the empty list passes the
builder's validation (an empty list is not `None`), producing
`Team(n, subteams=[])`; on that team `get_members` fails for every shuffle
policy and every oracle: the falsy empty `subteams` sends the node to the
leaf branch, whose `members` attribute is `None`, so
`random.sample(None, len(None))` / `members.extend(None)` raises a
`TypeError` instead of returning a list (modelled as `Option.none`). -/
theorem claim_C10 (n : String) (m : ShuffleMethod) (R : RandSrc) :
    build_team_from_dict (TeamDict.mk n none (some [])) =
      Except.ok (Team.node n []) ∧
    Team.get_members (Team.node n []) m R = none := by
  constructor
  · simp [build_team_from_dict, buildTeamList]
  · simp [Team.get_members, getMembersLoop]
